import Mathlib

/-!
# Verification of `CircularQueue.h` (espsoftwareserial)

Shallow embedding of `src/src/CircularQueue/CircularQueue.h`:
the SPSC template class `CircularQueue<T>` and the MPSC extension
`CircularQueueMP<T>`.  Atomic cells are modelled as plain fields with
explicit state passing (a sequential, single-thread execution); the
cursors are C++ `int`s that only ever hold non-negative values below
`m_bufSize`, modelled as `Nat`.  The signed intermediate arithmetic in
`available`/`availableForWrite` (`ssize_t`) is modelled with `Int`.

The C++ constructor allocates `new std::atomic<T>[m_bufSize]` whose
element values are unspecified, so construction takes the initial
buffer contents as a parameter (theorems hypothesise only its length).
The member `const T defaultValue = {}` is modelled as a field carried
in the state.
-/

/-- State of `CircularQueue<T>` (CircularQueue.h lines 27-118). -/
structure CircularQueue (T : Type) where
  defaultValue : T
  m_bufSize : Nat
  m_buffer : List T
  m_inPosT : Nat
  m_outPos : Nat
deriving DecidableEq, Repr

namespace CircularQueue

variable {T : Type}

/-- `CircularQueue(size_t capacity)` (lines 31-35): `m_bufSize = capacity + 1`,
both cursors start at 0.  `init` stands for the unspecified contents of the
freshly allocated atomic array; `d` models `const T defaultValue = {}`. -/
def construct (capacity : Nat) (d : T) (init : List T) : CircularQueue T :=
  { defaultValue := d
    m_bufSize := capacity + 1
    m_buffer := init
    m_inPosT := 0
    m_outPos := 0 }

/-- `flush()` (lines 43-45): `m_outPos.store(m_inPosT.load())`. -/
def flush (s : CircularQueue T) : CircularQueue T :=
  { s with m_outPos := s.m_inPosT }

/-- `available()` (lines 47-52): signed difference, one conditional wrap. -/
def available (s : CircularQueue T) : Nat :=
  let avail : Int := (s.m_inPosT : Int) - (s.m_outPos : Int)
  (if avail < 0 then avail + (s.m_bufSize : Int) else avail).toNat

/-- `availableForWrite()` (lines 54-59). -/
def availableForWrite (s : CircularQueue T) : Nat :=
  let avail : Int := (s.m_outPos : Int) - (s.m_inPosT : Int) - 1
  (if avail < 0 then avail + (s.m_bufSize : Int) else avail).toNat

/-- `peek()` (lines 61-65). -/
def peek (s : CircularQueue T) : T :=
  let outPos := s.m_outPos
  if s.m_inPosT = outPos then s.defaultValue else s.m_buffer.getD outPos s.defaultValue

/-- `push(T val)` (lines 67-79).  Returns the `bool` result and the new
state.  Note the source's store order inside the non-full branch is
`m_inPosT.store(next)` (line 74) followed by `m_buffer[inPos].store(val)`
(line 76); the resulting state is their combined effect, and the order
itself is captured by `pushTrace` below. -/
def push (s : CircularQueue T) (val : T) : Bool × CircularQueue T :=
  let inPos := s.m_inPosT
  let next := (inPos + 1) % s.m_bufSize
  if next = s.m_outPos then
    (false, s)
  else
    (true, { s with m_inPosT := next, m_buffer := s.m_buffer.set inPos val })

/-- `pop()` (lines 81-92). -/
def pop (s : CircularQueue T) : T × CircularQueue T :=
  let outPos := s.m_outPos
  if s.m_inPosT = outPos then
    (s.defaultValue, s)
  else
    let val := s.m_buffer.getD outPos s.defaultValue
    (val, { s with m_outPos := (outPos + 1) % s.m_bufSize })

/-- `pop_n(T* buffer, size_t size)` (lines 94-110).  The first component
is the sequence of elements copied into the caller's output buffer, the
second the returned count, the third the new state. -/
def pop_n (s : CircularQueue T) (size0 : Nat) : List T × Nat × CircularQueue T :=
  let size := min size0 (available s)
  let avail := size
  if avail = 0 then
    ([], 0, s)
  else
    let outPos := s.m_outPos
    let n := min avail (s.m_bufSize - outPos)
    let out1 := (s.m_buffer.drop outPos).take n
    let avail1 := avail - n
    let out2 := if 0 < avail1 then s.m_buffer.take avail1 else []
    (out1 ++ out2, size, { s with m_outPos := (outPos + size) % s.m_bufSize })

end CircularQueue

/-- The two stores the non-full branch of `CircularQueue::push` performs on
shared state, in program order. -/
inductive PushEvent (T : Type) where
  | storeInPosT (v : Nat)
  | storeSlot (i : Nat) (v : T)
deriving DecidableEq, Repr

namespace CircularQueue

variable {T : Type}

/-- The sequence of shared-state stores executed by `push` (lines 67-79),
in the source's statement order: line 74 `m_inPosT.store(next)` comes
before line 76 `m_buffer[inPos].store(val)`.  Empty on the full branch. -/
def pushTrace (s : CircularQueue T) (val : T) : List (PushEvent T) :=
  let inPos := s.m_inPosT
  let next := (inPos + 1) % s.m_bufSize
  if next = s.m_outPos then
    []
  else
    [PushEvent.storeInPosT next, PushEvent.storeSlot inPos val]

/-- Effect of a single store event on the state. -/
def applyEvent (s : CircularQueue T) : PushEvent T → CircularQueue T
  | PushEvent.storeInPosT v => { s with m_inPosT := v }
  | PushEvent.storeSlot i v => { s with m_buffer := s.m_buffer.set i v }

/-- `true` iff some payload (slot) store occurs strictly before some
write-cursor store in the trace. -/
def slotStoreFirst (tr : List (PushEvent T)) : Bool :=
  match tr.findIdx? (fun e => match e with | PushEvent.storeSlot _ _ => true | _ => false),
        tr.findIdx? (fun e => match e with | PushEvent.storeInPosT _ => true | _ => false) with
  | some i, some j => decide (i < j)
  | _, _ => false

/-- `true` iff some write-cursor store occurs strictly before some
payload (slot) store in the trace. -/
def cursorStoreFirst (tr : List (PushEvent T)) : Bool :=
  match tr.findIdx? (fun e => match e with | PushEvent.storeInPosT _ => true | _ => false),
        tr.findIdx? (fun e => match e with | PushEvent.storeSlot _ _ => true | _ => false) with
  | some i, some j => decide (i < j)
  | _, _ => false

end CircularQueue

/-- State of `CircularQueueMP<T>` (lines 120-186): the base SPSC state
plus the reservation cursor `m_inPosL` and completion counter `m_inPosC`. -/
structure CircularQueueMP (T : Type) extends CircularQueue T where
  m_inPosL : Nat
  m_inPosC : Nat
deriving DecidableEq, Repr

namespace CircularQueueMP

variable {T : Type}

/-- `CircularQueueMP(size_t capacity)` (lines 123-127). -/
def construct (capacity : Nat) (d : T) (init : List T) : CircularQueueMP T :=
  { CircularQueue.construct capacity d init with m_inPosL := 0, m_inPosC := 0 }

/-- Inherited `using CircularQueue<T>::flush` (line 128): acts on base fields. -/
def flush (s : CircularQueueMP T) : CircularQueueMP T :=
  { s with toCircularQueue := s.toCircularQueue.flush }

/-- Inherited `using CircularQueue<T>::available` (line 129). -/
def available (s : CircularQueueMP T) : Nat :=
  s.toCircularQueue.available

/-- Inherited `using CircularQueue<T>::peek` (line 130). -/
def peek (s : CircularQueueMP T) : T :=
  s.toCircularQueue.peek

/-- Inherited `using CircularQueue<T>::pop` (line 131). -/
def pop (s : CircularQueueMP T) : T × CircularQueueMP T :=
  let r := s.toCircularQueue.pop
  (r.1, { s with toCircularQueue := r.2 })

/-- Inherited `using CircularQueue<T>::pop_n` (line 132). -/
def pop_n (s : CircularQueueMP T) (size0 : Nat) : List T × Nat × CircularQueueMP T :=
  let r := s.toCircularQueue.pop_n size0
  (r.1, r.2.1, { s with toCircularQueue := r.2.2 })

/-- MP `availableForWrite()` (lines 134-139): computed against `m_inPosL`. -/
def availableForWrite (s : CircularQueueMP T) : Nat :=
  let avail : Int := (s.m_outPos : Int) - (s.m_inPosL : Int) - 1
  (if avail < 0 then avail + (s.m_bufSize : Int) else avail).toNat

/-- MP `push(T val)`, CAS branch (lines 158-181), executed sequentially
with no concurrent interleaving: each `compare_exchange_weak` then finds
the value it just loaded and succeeds on the first loop iteration, and
`compare_exchange_strong(wrappedC, wrappedC)` is the pure equality test
`m_inPosL == wrappedC` with no state change on either outcome. -/
def push (s : CircularQueueMP T) (val : T) : Bool × CircularQueueMP T :=
  let inPos := s.m_inPosL
  let nextL := (inPos + 1) % s.m_bufSize
  if nextL = s.m_outPos then
    (false, s)
  else
    let s1 := { s with m_inPosL := nextL }
    let s2 := { s1 with m_buffer := s1.m_buffer.set inPos val }
    let inPosC := s2.m_inPosC
    let wrappedC := (inPosC + 1) % s2.m_bufSize
    let s3 := { s2 with m_inPosC := wrappedC }
    if s3.m_inPosL = wrappedC then
      (true, { s3 with m_inPosT := wrappedC })
    else
      (true, s3)

end CircularQueueMP

namespace CircularQueue

variable {T : Type}

/-- `n` sequential calls to `pop()`, collecting the returned values in order. -/
def popMany : CircularQueue T → Nat → List T × CircularQueue T
  | s, 0 => ([], s)
  | s, n + 1 =>
    let r1 := s.pop
    let r2 := popMany r1.2 n
    (r1.1 :: r2.1, r2.2)

/-- Sequential `push` of a list of values, keeping only the final state. -/
def pushMany : CircularQueue T → List T → CircularQueue T
  | s, [] => s
  | s, v :: vs => pushMany (s.push v).2 vs

/-- `j` sequential calls to `push` with the value sequence `f`. -/
def pushIter (f : Nat → T) (s : CircularQueue T) : Nat → CircularQueue T
  | 0 => s
  | j + 1 => ((pushIter f s j).push (f j)).2

/-- The `m` elements of `l` at the circular positions
`r % N, (r+1) % N, ...`: the logical window a consumer reads. -/
def readWindow (l : List T) (d : T) (N r m : Nat) : List T :=
  (List.range m).map fun i => l.getD ((r + i) % N) d

/-- Overwrite consecutive slots of `l` from index `i` on with the values
`vs`, as a sequence of `push` slot stores does. -/
def writeSeq : List T → Nat → List T → List T
  | l, _, [] => l
  | l, i, v :: vs => writeSeq (l.set i v) (i + 1) vs

/-- The claimed range invariant for the SPSC cursors. -/
def InRangeSP (s : CircularQueue T) : Prop :=
  1 ≤ s.m_bufSize ∧ s.m_inPosT < s.m_bufSize ∧ s.m_outPos < s.m_bufSize

/-- The claimed range invariant for all four MPSC cursors. -/
def InRangeMP (s : CircularQueueMP T) : Prop :=
  1 ≤ s.m_bufSize ∧ s.m_inPosT < s.m_bufSize ∧ s.m_outPos < s.m_bufSize ∧
    s.m_inPosL < s.m_bufSize ∧ s.m_inPosC < s.m_bufSize

end CircularQueue

/-- SPSC states reachable from construction by the public operations
(`peek` reads without changing state). -/
inductive ReachableSP {T : Type} : CircularQueue T → Prop where
  | construct (capacity : Nat) (d : T) (init : List T) :
      ReachableSP (CircularQueue.construct capacity d init)
  | push (s : CircularQueue T) (val : T) : ReachableSP s → ReachableSP (s.push val).2
  | pop (s : CircularQueue T) : ReachableSP s → ReachableSP s.pop.2
  | peek (s : CircularQueue T) : ReachableSP s → ReachableSP s
  | flush (s : CircularQueue T) : ReachableSP s → ReachableSP s.flush
  | pop_n (s : CircularQueue T) (k : Nat) : ReachableSP s → ReachableSP (s.pop_n k).2.2

/-- MPSC states reachable from construction by the public operations:
the MP `push` and the inherited consumer-side operations. -/
inductive ReachableMP {T : Type} : CircularQueueMP T → Prop where
  | construct (capacity : Nat) (d : T) (init : List T) :
      ReachableMP (CircularQueueMP.construct capacity d init)
  | push (s : CircularQueueMP T) (val : T) : ReachableMP s → ReachableMP (s.push val).2
  | pop (s : CircularQueueMP T) : ReachableMP s → ReachableMP s.pop.2
  | peek (s : CircularQueueMP T) : ReachableMP s → ReachableMP s
  | flush (s : CircularQueueMP T) : ReachableMP s → ReachableMP s.flush
  | pop_n (s : CircularQueueMP T) (k : Nat) : ReachableMP s → ReachableMP (s.pop_n k).2.2

section SupportLemmas

variable {T : Type}

theorem CircularQueue.available_of_le (s : CircularQueue T)
    (hw : s.m_inPosT < s.m_bufSize) (hr : s.m_outPos < s.m_bufSize)
    (h : s.m_outPos ≤ s.m_inPosT) :
    s.available = s.m_inPosT - s.m_outPos := by
  simp only [CircularQueue.available]
  rw [if_neg (by omega)]
  omega

theorem CircularQueue.available_of_gt (s : CircularQueue T)
    (hw : s.m_inPosT < s.m_bufSize) (hr : s.m_outPos < s.m_bufSize)
    (h : s.m_inPosT < s.m_outPos) :
    s.available = s.m_inPosT + s.m_bufSize - s.m_outPos := by
  simp only [CircularQueue.available]
  rw [if_pos (by omega)]
  omega

theorem CircularQueue.available_lt (s : CircularQueue T)
    (hw : s.m_inPosT < s.m_bufSize) (hr : s.m_outPos < s.m_bufSize) :
    s.available < s.m_bufSize := by
  rcases Nat.lt_or_ge s.m_inPosT s.m_outPos with h | h
  · rw [s.available_of_gt hw hr h]; omega
  · rw [s.available_of_le hw hr h]; omega

theorem CircularQueue.available_pos_ne (s : CircularQueue T)
    (hw : s.m_inPosT < s.m_bufSize) (hr : s.m_outPos < s.m_bufSize)
    (h : 0 < s.available) :
    s.m_inPosT ≠ s.m_outPos := by
  intro he
  rw [s.available_of_le hw hr (Nat.le_of_eq he.symm)] at h
  omega

end SupportLemmas

/-- **C5.** `flush()` sets `readCursor` (`m_outPos`) to the current
`writeCursor` (`m_inPosT`) and leaves the write cursor unchanged; right
afterwards `available()` is `0` and a subsequent `pop()` returns the
element type's default value, for every state. -/
theorem flush_bulk_discard {T : Type} (s : CircularQueue T) :
    s.flush.m_outPos = s.m_inPosT ∧
    s.flush.m_inPosT = s.m_inPosT ∧
    s.flush.available = 0 ∧
    s.flush.pop.1 = s.defaultValue := by
  refine ⟨rfl, rfl, ?_, ?_⟩
  · simp [CircularQueue.flush, CircularQueue.available]
  · simp [CircularQueue.flush, CircularQueue.pop]

/-- **C6.** `pop()` on an empty state (`m_inPosT = m_outPos`) returns the
default value and leaves the state unchanged; on a non-empty state it
returns the element in slot `m_outPos` and advances `m_outPos` to
`(m_outPos + 1) % m_bufSize`, touching nothing else. -/
theorem pop_spec {T : Type} (s : CircularQueue T) :
    (s.m_inPosT = s.m_outPos → s.pop = (s.defaultValue, s)) ∧
    (s.m_inPosT ≠ s.m_outPos →
      s.pop = (s.m_buffer.getD s.m_outPos s.defaultValue,
        { s with m_outPos := (s.m_outPos + 1) % s.m_bufSize })) := by
  constructor <;> intro h <;> simp [CircularQueue.pop, h]

/-- Witness for C6 at concrete states: the empty case on a fresh queue and
the non-empty case on a one-element queue. -/
theorem pop_spec_witness :
    (⟨0, 3, [0, 0, 0], 0, 0⟩ : CircularQueue Int).pop = (0, ⟨0, 3, [0, 0, 0], 0, 0⟩) ∧
    (⟨0, 3, [7, 0, 0], 1, 0⟩ : CircularQueue Int).pop = (7, ⟨0, 3, [7, 0, 0], 1, 1⟩) :=
  ⟨(pop_spec ⟨0, 3, [0, 0, 0], 0, 0⟩).1 rfl,
    (pop_spec ⟨0, 3, [7, 0, 0], 1, 0⟩).2 (by decide)⟩

/-- **C7.** On a full state (`(m_inPosT + 1) % m_bufSize = m_outPos`),
`push` returns `false` and the state — both cursors and every storage
slot — is exactly as before. -/
theorem push_full_no_mutation {T : Type} (s : CircularQueue T) (val : T)
    (hfull : (s.m_inPosT + 1) % s.m_bufSize = s.m_outPos) :
    s.push val = (false, s) := by
  simp [CircularQueue.push, hfull]

/-- Witness for C7: a full three-slot queue rejects a push unchanged. -/
theorem push_full_no_mutation_witness :
    (⟨0, 3, [1, 2, 0], 2, 0⟩ : CircularQueue Int).push 5 =
      (false, ⟨0, 3, [1, 2, 0], 2, 0⟩) :=
  push_full_no_mutation ⟨0, 3, [1, 2, 0], 2, 0⟩ 5 (by decide)

/-- **C9.** For a queue constructed with capacity 0, storage has exactly
one slot: the constructor yields `m_bufSize = 1` with both cursors `0`,
and in any state satisfying the cursor-range invariant for `m_bufSize = 1`
every `push` fails without any state change while `available()` and
`availableForWrite()` both return `0`. -/
theorem capacity_zero_degenerate {T : Type} (d : T) (init : List T)
    (s : CircularQueue T) (val : T)
    (hN : s.m_bufSize = 1) (hw : s.m_inPosT < 1) (hr : s.m_outPos < 1) :
    (CircularQueue.construct 0 d init).m_bufSize = 1 ∧
    (CircularQueue.construct 0 d init).m_inPosT = 0 ∧
    (CircularQueue.construct 0 d init).m_outPos = 0 ∧
    s.push val = (false, s) ∧
    s.available = 0 ∧
    s.availableForWrite = 0 := by
  have hw0 : s.m_inPosT = 0 := by omega
  have hr0 : s.m_outPos = 0 := by omega
  refine ⟨rfl, rfl, rfl, ?_, ?_, ?_⟩
  · simp [CircularQueue.push, hN, hw0, hr0]
  · simp [CircularQueue.available, hw0, hr0]
  · simp [CircularQueue.availableForWrite, hN, hw0, hr0]

/-- Witness for C9 at the freshly constructed capacity-0 queue. -/
theorem capacity_zero_degenerate_witness :
    (CircularQueue.construct 0 (0 : Int) [0]).m_bufSize = 1 ∧
    (CircularQueue.construct 0 (0 : Int) [0]).m_inPosT = 0 ∧
    (CircularQueue.construct 0 (0 : Int) [0]).m_outPos = 0 ∧
    (⟨0, 1, [0], 0, 0⟩ : CircularQueue Int).push 7 = (false, ⟨0, 1, [0], 0, 0⟩) ∧
    (⟨0, 1, [0], 0, 0⟩ : CircularQueue Int).available = 0 ∧
    (⟨0, 1, [0], 0, 0⟩ : CircularQueue Int).availableForWrite = 0 :=
  capacity_zero_degenerate 0 [0] ⟨0, 1, [0], 0, 0⟩ 7 rfl (by decide) (by decide)

/-- **C1 counterexample.** On the non-full freshly constructed queue of
capacity 2, pushing the value 5 produces the store trace
`[storeInPosT 1, storeSlot 0 5]`: no payload (slot) store precedes the
write-cursor store, so the claim that the payload store comes first is
false at this input. -/
theorem push_store_order_counterexample :
    ((CircularQueue.construct 2 (0 : Int) [0, 0, 0]).m_inPosT + 1) %
        (CircularQueue.construct 2 (0 : Int) [0, 0, 0]).m_bufSize ≠
      (CircularQueue.construct 2 (0 : Int) [0, 0, 0]).m_outPos ∧
    (CircularQueue.construct 2 (0 : Int) [0, 0, 0]).pushTrace 5 =
      [PushEvent.storeInPosT 1, PushEvent.storeSlot 0 5] ∧
    CircularQueue.slotStoreFirst
      ((CircularQueue.construct 2 (0 : Int) [0, 0, 0]).pushTrace 5) = false := by
  decide

/-- **C1 (amended).** For every non-full state, `push` first stores the
advanced write cursor and only then stores the pushed value into the slot
at the previous cursor: the publication of the advanced cursor precedes
the payload store, and no payload store precedes it. -/
theorem push_cursor_store_precedes_slot_store {T : Type} (s : CircularQueue T) (val : T)
    (hnotfull : (s.m_inPosT + 1) % s.m_bufSize ≠ s.m_outPos) :
    s.pushTrace val =
      [PushEvent.storeInPosT ((s.m_inPosT + 1) % s.m_bufSize),
        PushEvent.storeSlot s.m_inPosT val] ∧
    CircularQueue.cursorStoreFirst (s.pushTrace val) = true ∧
    CircularQueue.slotStoreFirst (s.pushTrace val) = false := by
  have htr : s.pushTrace val =
      [PushEvent.storeInPosT ((s.m_inPosT + 1) % s.m_bufSize),
        PushEvent.storeSlot s.m_inPosT val] := by
    simp [CircularQueue.pushTrace, hnotfull]
  refine ⟨htr, ?_, ?_⟩ <;> rw [htr] <;> rfl

/-- Witness for the amended C1 on a concrete non-full queue. -/
theorem push_cursor_store_precedes_slot_store_witness :
    (CircularQueue.construct 2 (0 : Int) [0, 0, 0]).pushTrace 9 =
      [PushEvent.storeInPosT
          (((CircularQueue.construct 2 (0 : Int) [0, 0, 0]).m_inPosT + 1) %
            (CircularQueue.construct 2 (0 : Int) [0, 0, 0]).m_bufSize),
        PushEvent.storeSlot (CircularQueue.construct 2 (0 : Int) [0, 0, 0]).m_inPosT 9] ∧
    CircularQueue.cursorStoreFirst
      ((CircularQueue.construct 2 (0 : Int) [0, 0, 0]).pushTrace 9) = true ∧
    CircularQueue.slotStoreFirst
      ((CircularQueue.construct 2 (0 : Int) [0, 0, 0]).pushTrace 9) = false :=
  push_cursor_store_precedes_slot_store (CircularQueue.construct 2 (0 : Int) [0, 0, 0]) 9
    (by decide)

/-- Sanity check tying the trace to the state transformer: replaying the
store trace of `push` over the starting state yields exactly the state
`push` returns, on the full and the non-full branch alike. -/
theorem pushTrace_replay {T : Type} (s : CircularQueue T) (val : T) :
    (s.pushTrace val).foldl CircularQueue.applyEvent s = (s.push val).2 := by
  by_cases h : (s.m_inPosT + 1) % s.m_bufSize = s.m_outPos <;>
    simp [CircularQueue.pushTrace, CircularQueue.push, CircularQueue.applyEvent, h]

theorem pushIter_construct_state {T : Type} (C : Nat) (d : T) (init : List T)
    (f : Nat → T) :
    ∀ j, j ≤ C →
      (CircularQueue.pushIter f (CircularQueue.construct C d init) j).m_bufSize = C + 1 ∧
      (CircularQueue.pushIter f (CircularQueue.construct C d init) j).m_inPosT = j ∧
      (CircularQueue.pushIter f (CircularQueue.construct C d init) j).m_outPos = 0 := by
  intro j
  induction j with
  | zero => exact fun _ => ⟨rfl, rfl, rfl⟩
  | succ j ih =>
    intro hj
    obtain ⟨hN, hw, hr⟩ := ih (Nat.le_of_succ_le hj)
    have hmod : (j + 1) % (C + 1) = j + 1 := Nat.mod_eq_of_lt (by omega)
    simp only [CircularQueue.pushIter, CircularQueue.push, hN, hw, hr, hmod]
    rw [if_neg (by omega)]
    exact ⟨rfl, rfl, rfl⟩

/-- **C2.** For every capacity `C ≥ 1`, starting from a freshly
constructed queue: `availableForWrite()` is `C` before any push, each of
the first `C` pushes returns `true`, the `(C+1)`-th push returns `false`,
and after `j` accepted pushes `availableForWrite()` equals `C - j` (so it
decreases by exactly one per accepted push). -/
theorem capacity_pushes_spec {T : Type} (C : Nat) (hC : 1 ≤ C) (d : T)
    (init : List T) (hinit : init.length = C + 1) (f : Nat → T) :
    (CircularQueue.construct C d init).availableForWrite = C ∧
    (∀ j, j < C →
      ((CircularQueue.pushIter f (CircularQueue.construct C d init) j).push (f j)).1 = true) ∧
    ((CircularQueue.pushIter f (CircularQueue.construct C d init) C).push (f C)).1 = false ∧
    (∀ j, j ≤ C →
      (CircularQueue.pushIter f (CircularQueue.construct C d init) j).availableForWrite
        = C - j) := by
  refine ⟨?_, ?_, ?_, ?_⟩
  · simp only [CircularQueue.availableForWrite, CircularQueue.construct]
    rw [if_pos (by omega)]
    omega
  · intro j hj
    obtain ⟨hN, hw, hr⟩ := pushIter_construct_state C d init f j (Nat.le_of_lt hj)
    have hmod : (j + 1) % (C + 1) = j + 1 := Nat.mod_eq_of_lt (by omega)
    simp only [CircularQueue.push, hN, hw, hr, hmod]
    rw [if_neg (by omega)]
  · obtain ⟨hN, hw, hr⟩ := pushIter_construct_state C d init f C (Nat.le_refl C)
    have hmod : (C + 1) % (C + 1) = 0 := Nat.mod_self _
    simp only [CircularQueue.push, hN, hw, hr, hmod]
    simp
  · intro j hj
    obtain ⟨hN, hw, hr⟩ := pushIter_construct_state C d init f j hj
    simp only [CircularQueue.availableForWrite, hN, hw, hr]
    rw [if_pos (by omega)]
    omega

/-- Witness for C2 at capacity 2 pushing the constant sequence 9. -/
theorem capacity_pushes_spec_witness :
    (CircularQueue.construct 2 (0 : Int) [0, 0, 0]).availableForWrite = 2 ∧
    (∀ j, j < 2 →
      ((CircularQueue.pushIter (fun _ => (9 : Int))
        (CircularQueue.construct 2 (0 : Int) [0, 0, 0]) j).push 9).1 = true) ∧
    ((CircularQueue.pushIter (fun _ => (9 : Int))
      (CircularQueue.construct 2 (0 : Int) [0, 0, 0]) 2).push 9).1 = false ∧
    (∀ j, j ≤ 2 →
      (CircularQueue.pushIter (fun _ => (9 : Int))
        (CircularQueue.construct 2 (0 : Int) [0, 0, 0]) j).availableForWrite = 2 - j) :=
  capacity_pushes_spec 2 (by decide) 0 [0, 0, 0] (by decide) (fun _ => (9 : Int))

/-- **C10.** When the MPSC `push` runs to completion with no concurrent
interleaving, from any state where the reservation cursor `m_inPosL`, the
completion counter `m_inPosC`, and the published cursor `m_inPosT` are all
equal, it returns the same boolean and the same observable base state
(storage, write cursor, read cursor) as the SPSC `push` on the same
value, and it re-establishes `m_inPosL = m_inPosC = m_inPosT`. -/
theorem mp_push_refines_sp_push {T : Type} (s : CircularQueueMP T) (val : T)
    (hL : s.m_inPosL = s.m_inPosT) (hC : s.m_inPosC = s.m_inPosT) :
    (s.push val).1 = (s.toCircularQueue.push val).1 ∧
    (s.push val).2.toCircularQueue = (s.toCircularQueue.push val).2 ∧
    (s.push val).2.m_inPosL = (s.push val).2.m_inPosT ∧
    (s.push val).2.m_inPosC = (s.push val).2.m_inPosT := by
  by_cases h : (s.m_inPosT + 1) % s.m_bufSize = s.m_outPos <;>
    simp [CircularQueueMP.push, CircularQueue.push, hL, hC, h]

/-- Witness for C10 on a concrete quiescent MP state. -/
theorem mp_push_refines_sp_push_witness :
    ((⟨⟨0, 3, [4, 0, 0], 1, 0⟩, 1, 1⟩ : CircularQueueMP Int).push 5).1 =
      ((⟨0, 3, [4, 0, 0], 1, 0⟩ : CircularQueue Int).push 5).1 ∧
    ((⟨⟨0, 3, [4, 0, 0], 1, 0⟩, 1, 1⟩ : CircularQueueMP Int).push 5).2.toCircularQueue =
      ((⟨0, 3, [4, 0, 0], 1, 0⟩ : CircularQueue Int).push 5).2 ∧
    ((⟨⟨0, 3, [4, 0, 0], 1, 0⟩, 1, 1⟩ : CircularQueueMP Int).push 5).2.m_inPosL =
      ((⟨⟨0, 3, [4, 0, 0], 1, 0⟩, 1, 1⟩ : CircularQueueMP Int).push 5).2.m_inPosT ∧
    ((⟨⟨0, 3, [4, 0, 0], 1, 0⟩, 1, 1⟩ : CircularQueueMP Int).push 5).2.m_inPosC =
      ((⟨⟨0, 3, [4, 0, 0], 1, 0⟩, 1, 1⟩ : CircularQueueMP Int).push 5).2.m_inPosT :=
  mp_push_refines_sp_push ⟨⟨0, 3, [4, 0, 0], 1, 0⟩, 1, 1⟩ 5 rfl rfl

theorem inRangeSP_push {T : Type} (s : CircularQueue T) (val : T)
    (h : CircularQueue.InRangeSP s) : CircularQueue.InRangeSP (s.push val).2 := by
  obtain ⟨hN, hw, hr⟩ := h
  simp only [CircularQueue.push]
  split
  · exact ⟨hN, hw, hr⟩
  · exact ⟨hN, Nat.mod_lt _ (by omega), hr⟩

theorem inRangeSP_pop {T : Type} (s : CircularQueue T)
    (h : CircularQueue.InRangeSP s) : CircularQueue.InRangeSP s.pop.2 := by
  obtain ⟨hN, hw, hr⟩ := h
  simp only [CircularQueue.pop]
  split
  · exact ⟨hN, hw, hr⟩
  · exact ⟨hN, hw, Nat.mod_lt _ (by omega)⟩

theorem inRangeSP_flush {T : Type} (s : CircularQueue T)
    (h : CircularQueue.InRangeSP s) : CircularQueue.InRangeSP s.flush := by
  obtain ⟨hN, hw, hr⟩ := h
  exact ⟨hN, hw, hw⟩

theorem inRangeSP_pop_n {T : Type} (s : CircularQueue T) (k : Nat)
    (h : CircularQueue.InRangeSP s) : CircularQueue.InRangeSP (s.pop_n k).2.2 := by
  obtain ⟨hN, hw, hr⟩ := h
  simp only [CircularQueue.pop_n]
  split
  · exact ⟨hN, hw, hr⟩
  · exact ⟨hN, hw, Nat.mod_lt _ (by omega)⟩

theorem inRangeMP_push {T : Type} (s : CircularQueueMP T) (val : T)
    (h : CircularQueue.InRangeMP s) : CircularQueue.InRangeMP (s.push val).2 := by
  obtain ⟨hN, hw, hr, hl, hc⟩ := h
  simp only [CircularQueueMP.push]
  split
  · exact ⟨hN, hw, hr, hl, hc⟩
  · split
    · exact ⟨hN, Nat.mod_lt _ (by omega), hr, Nat.mod_lt _ (by omega),
        Nat.mod_lt _ (by omega)⟩
    · exact ⟨hN, hw, hr, Nat.mod_lt _ (by omega), Nat.mod_lt _ (by omega)⟩

theorem inRangeMP_pop {T : Type} (s : CircularQueueMP T)
    (h : CircularQueue.InRangeMP s) : CircularQueue.InRangeMP s.pop.2 := by
  obtain ⟨hN, hw, hr, hl, hc⟩ := h
  simp only [CircularQueueMP.pop, CircularQueue.pop]
  split
  · exact ⟨hN, hw, hr, hl, hc⟩
  · exact ⟨hN, hw, Nat.mod_lt _ (by omega), hl, hc⟩

theorem inRangeMP_flush {T : Type} (s : CircularQueueMP T)
    (h : CircularQueue.InRangeMP s) : CircularQueue.InRangeMP s.flush := by
  obtain ⟨hN, hw, hr, hl, hc⟩ := h
  exact ⟨hN, hw, hw, hl, hc⟩

theorem inRangeMP_pop_n {T : Type} (s : CircularQueueMP T) (k : Nat)
    (h : CircularQueue.InRangeMP s) : CircularQueue.InRangeMP (s.pop_n k).2.2 := by
  obtain ⟨hN, hw, hr, hl, hc⟩ := h
  simp only [CircularQueueMP.pop_n, CircularQueue.pop_n]
  split
  · exact ⟨hN, hw, hr, hl, hc⟩
  · exact ⟨hN, hw, Nat.mod_lt _ (by omega), hl, hc⟩

/-- **C8.** Every state reachable from construction (`N = capacity + 1`,
all cursors 0) by the queue's operations — SPSC `push`, `pop`, `peek`,
`flush`, `pop_n`, and on the MPSC side additionally the CAS `push` with
its reservation cursor `m_inPosL` and completion counter `m_inPosC` —
keeps every cursor in the range `[0, m_bufSize)`. -/
theorem cursor_range_invariant :
    (∀ (T : Type) (s : CircularQueue T), ReachableSP s → CircularQueue.InRangeSP s) ∧
    (∀ (T : Type) (s : CircularQueueMP T), ReachableMP s → CircularQueue.InRangeMP s) := by
  constructor
  · intro T s h
    induction h with
    | construct capacity d init =>
      refine ⟨?_, ?_, ?_⟩ <;> simp [CircularQueue.construct]
    | push s val hs ih => exact inRangeSP_push s val ih
    | pop s hs ih => exact inRangeSP_pop s ih
    | peek s hs ih => exact ih
    | flush s hs ih => exact inRangeSP_flush s ih
    | pop_n s k hs ih => exact inRangeSP_pop_n s k ih
  · intro T s h
    induction h with
    | construct capacity d init =>
      refine ⟨?_, ?_, ?_, ?_, ?_⟩ <;>
        simp [CircularQueueMP.construct, CircularQueue.construct]
    | push s val hs ih => exact inRangeMP_push s val ih
    | pop s hs ih => exact inRangeMP_pop s ih
    | peek s hs ih => exact ih
    | flush s hs ih => exact inRangeMP_flush s ih
    | pop_n s k hs ih => exact inRangeMP_pop_n s k ih

/-- Witness for C8 on concrete reachable states of both variants. -/
theorem cursor_range_invariant_witness :
    CircularQueue.InRangeSP ((CircularQueue.construct 2 (0 : Int) [0, 0, 0]).push 5).2 ∧
    CircularQueue.InRangeMP ((CircularQueueMP.construct 2 (0 : Int) [0, 0, 0]).push 5).2 :=
  ⟨cursor_range_invariant.1 Int _
      (ReachableSP.push _ 5 (ReachableSP.construct 2 0 [0, 0, 0])),
    cursor_range_invariant.2 Int _
      (ReachableMP.push _ 5 (ReachableMP.construct 2 0 [0, 0, 0]))⟩

theorem getD_lt {T : Type} (l : List T) (d : T) (i : Nat) (h : i < l.length) :
    l.getD i d = l[i] := by
  simp [List.getD_eq_getElem?_getD, List.getElem?_eq_getElem h]

theorem take_if_pos {T : Type} (l : List T) (x : Nat) :
    (if 0 < x then l.take x else []) = l.take x := by
  split
  · rfl
  · have hx : x = 0 := by omega
    simp [hx]

theorem readWindow_succ {T : Type} (l : List T) (d : T) (N r m : Nat) (hr : r < N) :
    CircularQueue.readWindow l d N r (m + 1) =
      l.getD r d :: CircularQueue.readWindow l d N ((r + 1) % N) m := by
  simp only [CircularQueue.readWindow, List.range_succ_eq_map, List.map_cons, List.map_map,
    Nat.add_zero, Nat.mod_eq_of_lt hr]
  congr 1
  apply List.map_congr_left
  intro i hi
  simp only [Function.comp_apply, Nat.succ_eq_add_one]
  congr 1
  rw [Nat.mod_add_mod]
  congr 1
  omega

theorem available_pop_sub {T : Type} (s : CircularQueue T)
    (hw : s.m_inPosT < s.m_bufSize) (hr : s.m_outPos < s.m_bufSize)
    (hpos : 0 < s.available) :
    CircularQueue.available { s with m_outPos := (s.m_outPos + 1) % s.m_bufSize } =
      s.available - 1 := by
  rcases Nat.lt_or_ge (s.m_outPos + 1) s.m_bufSize with hlt | hge
  · have hmod : (s.m_outPos + 1) % s.m_bufSize = s.m_outPos + 1 := Nat.mod_eq_of_lt hlt
    simp only [CircularQueue.available, hmod] at hpos ⊢
    split at hpos <;> split <;> omega
  · have he : s.m_outPos + 1 = s.m_bufSize := by omega
    have hmod : (s.m_outPos + 1) % s.m_bufSize = 0 := by rw [he]; exact Nat.mod_self _
    simp only [CircularQueue.available, hmod] at hpos ⊢
    split at hpos <;> split <;> omega

theorem popMany_eq {T : Type} (n : Nat) :
    ∀ s : CircularQueue T,
      s.m_buffer.length = s.m_bufSize →
      s.m_inPosT < s.m_bufSize →
      s.m_outPos < s.m_bufSize →
      n ≤ s.available →
      CircularQueue.popMany s n =
        (CircularQueue.readWindow s.m_buffer s.defaultValue s.m_bufSize s.m_outPos n,
          { s with m_outPos := (s.m_outPos + n) % s.m_bufSize }) := by
  induction n with
  | zero =>
    intro s hlen hw hr hn
    have h1 : (s.m_outPos + 0) % s.m_bufSize = s.m_outPos := by
      rw [Nat.add_zero, Nat.mod_eq_of_lt hr]
    rw [h1]
    rfl
  | succ n ih =>
    intro s hlen hw hr hn
    have hpos : 0 < s.available := by omega
    have hne : s.m_inPosT ≠ s.m_outPos := s.available_pos_ne hw hr hpos
    have hpop : s.pop = (s.m_buffer.getD s.m_outPos s.defaultValue,
        { s with m_outPos := (s.m_outPos + 1) % s.m_bufSize }) := by
      simp [CircularQueue.pop, hne]
    have hr1 : (s.m_outPos + 1) % s.m_bufSize < s.m_bufSize := Nat.mod_lt _ (by omega)
    have hav1 := available_pop_sub s hw hr hpos
    have hn1 : n ≤ CircularQueue.available
        { s with m_outPos := (s.m_outPos + 1) % s.m_bufSize } := by
      rw [hav1]; omega
    have ih1 := ih { s with m_outPos := (s.m_outPos + 1) % s.m_bufSize } hlen hw hr1 hn1
    show (s.pop.1 :: (CircularQueue.popMany s.pop.2 n).1,
        (CircularQueue.popMany s.pop.2 n).2) = _
    rw [hpop]
    simp only
    rw [ih1]
    simp only
    rw [readWindow_succ s.m_buffer s.defaultValue s.m_bufSize s.m_outPos n hr]
    have hco : ((s.m_outPos + 1) % s.m_bufSize + n) % s.m_bufSize =
        (s.m_outPos + (n + 1)) % s.m_bufSize := by
      rw [Nat.mod_add_mod]
      congr 1
      omega
    rw [hco]

theorem window_split {T : Type} (l : List T) (d : T) (r m : Nat)
    (hr : r < l.length) (hm : m ≤ l.length) :
    (l.drop r).take (min m (l.length - r)) ++ l.take (m - min m (l.length - r)) =
      CircularQueue.readWindow l d l.length r m := by
  apply List.ext_getElem
  · simp [CircularQueue.readWindow]
    omega
  · intro i h1 h2
    have him : i < m := by
      simpa [CircularQueue.readWindow] using h2
    simp only [CircularQueue.readWindow, List.getElem_map, List.getElem_range]
    by_cases hc : i < min m (l.length - r)
    · have hri : r + i < l.length := by omega
      have hmod : (r + i) % l.length = r + i := Nat.mod_eq_of_lt hri
      rw [hmod, getD_lt l d _ hri]
      rw [List.getElem_append_left (by simp; omega)]
      simp only [List.getElem_take, List.getElem_drop]
    · have hge2 : l.length ≤ r + i := by omega
      have hlt2 : r + i - l.length < l.length := by omega
      have hmod : (r + i) % l.length = r + i - l.length := by
        rw [Nat.mod_eq_sub_mod hge2, Nat.mod_eq_of_lt hlt2]
      rw [hmod, getD_lt l d _ hlt2]
      rw [List.getElem_append_right (by simp; omega)]
      simp only [List.length_take, List.length_drop, List.getElem_take]
      rw [← getD_lt l d (i - min (min m (l.length - r)) (l.length - r)) (by omega)]
      rw [← getD_lt l d (r + i - l.length) hlt2]
      have hidx : i - min (min m (l.length - r)) (l.length - r) = r + i - l.length := by
        omega
      rw [hidx]

theorem pop_n_eq_window {T : Type} (s : CircularQueue T) (k : Nat)
    (hlen : s.m_buffer.length = s.m_bufSize)
    (hw : s.m_inPosT < s.m_bufSize) (hr : s.m_outPos < s.m_bufSize) :
    s.pop_n k =
      (CircularQueue.readWindow s.m_buffer s.defaultValue s.m_bufSize s.m_outPos
          (min k s.available),
        min k s.available,
        { s with m_outPos := (s.m_outPos + min k s.available) % s.m_bufSize }) := by
  have havail := s.available_lt hw hr
  simp only [CircularQueue.pop_n]
  by_cases h0 : min k s.available = 0
  · rw [if_pos h0, h0]
    have h1 : (s.m_outPos + 0) % s.m_bufSize = s.m_outPos := by
      rw [Nat.add_zero, Nat.mod_eq_of_lt hr]
    rw [h1]
    rfl
  · rw [if_neg h0, take_if_pos]
    have hNlen : s.m_bufSize = s.m_buffer.length := hlen.symm
    rw [hNlen]
    have hr2 : s.m_outPos < s.m_buffer.length := by omega
    have hm2 : min k s.available ≤ s.m_buffer.length := by omega
    rw [window_split s.m_buffer s.defaultValue s.m_outPos (min k s.available) hr2 hm2]

/-- **C3.** For every well-formed state and every requested count `k`,
`pop_n` returns `n = min k (available())`, copies into the output buffer
exactly the elements that `n` sequential calls to `pop()` would return, in
the same order, and leaves the queue in the same final state (`m_outPos`
advanced by `n` modulo `m_bufSize`) as those `n` sequential pops — also
when the copied range wraps past the physical end of storage. -/
theorem pop_n_equiv_sequential_pop {T : Type} (s : CircularQueue T) (k : Nat)
    (hlen : s.m_buffer.length = s.m_bufSize)
    (hw : s.m_inPosT < s.m_bufSize) (hr : s.m_outPos < s.m_bufSize) :
    (s.pop_n k).2.1 = min k s.available ∧
    (s.pop_n k).1 = (CircularQueue.popMany s (s.pop_n k).2.1).1 ∧
    (s.pop_n k).2.2 = (CircularQueue.popMany s (s.pop_n k).2.1).2 := by
  have h1 := pop_n_eq_window s k hlen hw hr
  have h2 := popMany_eq (min k s.available) s hlen hw hr (Nat.min_le_right _ _)
  rw [h1, h2]
  exact ⟨rfl, rfl, rfl⟩

/-- Witness for C3 on a wrapping three-slot queue holding two elements. -/
theorem pop_n_equiv_sequential_pop_witness :
    ((⟨0, 3, [10, 20, 30], 1, 2⟩ : CircularQueue Int).pop_n 5).2.1 =
      min 5 (⟨0, 3, [10, 20, 30], 1, 2⟩ : CircularQueue Int).available ∧
    ((⟨0, 3, [10, 20, 30], 1, 2⟩ : CircularQueue Int).pop_n 5).1 =
      (CircularQueue.popMany (⟨0, 3, [10, 20, 30], 1, 2⟩ : CircularQueue Int)
        ((⟨0, 3, [10, 20, 30], 1, 2⟩ : CircularQueue Int).pop_n 5).2.1).1 ∧
    ((⟨0, 3, [10, 20, 30], 1, 2⟩ : CircularQueue Int).pop_n 5).2.2 =
      (CircularQueue.popMany (⟨0, 3, [10, 20, 30], 1, 2⟩ : CircularQueue Int)
        ((⟨0, 3, [10, 20, 30], 1, 2⟩ : CircularQueue Int).pop_n 5).2.1).2 :=
  pop_n_equiv_sequential_pop ⟨0, 3, [10, 20, 30], 1, 2⟩ 5 rfl (by decide) (by decide)

theorem writeSeq_length {T : Type} (vs : List T) :
    ∀ (l : List T) (p : Nat), (CircularQueue.writeSeq l p vs).length = l.length := by
  induction vs with
  | nil => intro l p; rfl
  | cons v vs ih =>
    intro l p
    show (CircularQueue.writeSeq (l.set p v) (p + 1) vs).length = l.length
    rw [ih (l.set p v) (p + 1), List.length_set]

theorem writeSeq_getD_lt {T : Type} (vs : List T) :
    ∀ (l : List T) (p j : Nat) (d : T), j < p →
      (CircularQueue.writeSeq l p vs).getD j d = l.getD j d := by
  induction vs with
  | nil => intro l p j d hj; rfl
  | cons v vs ih =>
    intro l p j d hj
    show (CircularQueue.writeSeq (l.set p v) (p + 1) vs).getD j d = l.getD j d
    rw [ih (l.set p v) (p + 1) j d (by omega)]
    rcases Nat.lt_or_ge j l.length with hjl | hjl
    · rw [getD_lt _ d j (by simpa using hjl), getD_lt l d j hjl]
      exact List.getElem_set_ne (by omega) _
    · rw [List.getD_eq_default _ d (by simpa using hjl), List.getD_eq_default l d hjl]

theorem writeSeq_getD {T : Type} (vs : List T) :
    ∀ (l : List T) (p i : Nat) (d : T),
      p + vs.length ≤ l.length → i < vs.length →
      (CircularQueue.writeSeq l p vs).getD (p + i) d = vs.getD i d := by
  induction vs with
  | nil => intro l p i d hp hi; simp at hi
  | cons v vs ih =>
    intro l p i d hp hi
    show (CircularQueue.writeSeq (l.set p v) (p + 1) vs).getD (p + i) d = (v :: vs).getD i d
    match i with
    | 0 =>
      have hpl : p < l.length := by simp at hp; omega
      have h0 := writeSeq_getD_lt vs (l.set p v) (p + 1) p d (by omega)
      rw [getD_lt (l.set p v) d p (by simpa using hpl)] at h0
      simp only [List.getElem_set_self] at h0
      exact h0
    | Nat.succ j =>
      have h1 : p + (j + 1) = (p + 1) + j := by omega
      rw [h1, ih (l.set p v) (p + 1) j d (by simp at hp ⊢; omega) (by simp at hi; omega)]
      rfl

theorem pushMany_linear {T : Type} (vs : List T) :
    ∀ s : CircularQueue T,
      s.m_buffer.length = s.m_bufSize →
      s.m_outPos = 0 →
      s.m_inPosT + vs.length < s.m_bufSize →
      CircularQueue.pushMany s vs =
        { s with m_inPosT := s.m_inPosT + vs.length,
                 m_buffer := CircularQueue.writeSeq s.m_buffer s.m_inPosT vs } := by
  induction vs with
  | nil =>
    intro s hlen hr hcap
    simp [CircularQueue.pushMany, CircularQueue.writeSeq]
  | cons v vs ih =>
    intro s hlen hr hcap
    have hcap1 : s.m_inPosT + vs.length + 1 < s.m_bufSize := by
      simp at hcap; omega
    have hmod : (s.m_inPosT + 1) % s.m_bufSize = s.m_inPosT + 1 :=
      Nat.mod_eq_of_lt (by omega)
    have hne : s.m_inPosT + 1 ≠ s.m_outPos := by
      rw [hr]; omega
    have hpush : s.push v = (true,
        { s with m_inPosT := s.m_inPosT + 1,
                 m_buffer := s.m_buffer.set s.m_inPosT v }) := by
      simp [CircularQueue.push, hmod, hne]
    show CircularQueue.pushMany (s.push v).2 vs = _
    rw [hpush]
    rw [ih { s with m_inPosT := s.m_inPosT + 1, m_buffer := s.m_buffer.set s.m_inPosT v }
      (by simp [hlen]) hr (by simp; omega)]
    simp only [CircularQueue.writeSeq, List.length_cons]
    congr 1
    omega

theorem readWindow_writeSeq {T : Type} (vs init : List T) (d : T) (N : Nat)
    (hlen : init.length = N) (hvs : vs.length < N) :
    CircularQueue.readWindow (CircularQueue.writeSeq init 0 vs) d N 0 vs.length = vs := by
  apply List.ext_getElem
  · simp [CircularQueue.readWindow]
  · intro i h1 h2
    have him : i < vs.length := by simpa using h2
    simp only [CircularQueue.readWindow, List.getElem_map, List.getElem_range]
    have hmod : (0 + i) % N = i := by
      rw [Nat.zero_add, Nat.mod_eq_of_lt (by omega)]
    rw [hmod]
    have hgd := writeSeq_getD vs init 0 i d (by omega) him
    rw [Nat.zero_add] at hgd
    rw [hgd, getD_lt vs d i him]

/-- **C4.** FIFO round-trip: pushing any sequence `vs` with
`vs.length ≤ C` into a freshly constructed queue of capacity `C`, with no
interleaved pops, and then popping `vs.length` times returns exactly `vs`
in order. -/
theorem fifo_roundtrip {T : Type} (C : Nat) (d : T) (init : List T)
    (hinit : init.length = C + 1) (vs : List T) (hvs : vs.length ≤ C) :
    (CircularQueue.popMany
        (CircularQueue.pushMany (CircularQueue.construct C d init) vs) vs.length).1 = vs := by
  have hpm := pushMany_linear vs (CircularQueue.construct C d init)
    (by simpa [CircularQueue.construct] using hinit)
    rfl
    (by simp [CircularQueue.construct]; omega)
  rw [hpm]
  simp only [CircularQueue.construct, Nat.zero_add]
  have hlenW : (CircularQueue.writeSeq init 0 vs).length = C + 1 := by
    rw [writeSeq_length]; exact hinit
  have havailS : CircularQueue.available
      (⟨d, C + 1, CircularQueue.writeSeq init 0 vs, vs.length, 0⟩ : CircularQueue T) =
        vs.length := by
    rw [CircularQueue.available_of_le _ (by show vs.length < C + 1; omega)
      (by show 0 < C + 1; omega) (by show 0 ≤ vs.length; omega)]
    show vs.length - 0 = vs.length
    omega
  have hpq := popMany_eq vs.length
    (⟨d, C + 1, CircularQueue.writeSeq init 0 vs, vs.length, 0⟩ : CircularQueue T)
    (by show (CircularQueue.writeSeq init 0 vs).length = C + 1; exact hlenW)
    (by show vs.length < C + 1; omega)
    (by show 0 < C + 1; omega)
    (by rw [havailS])
  rw [hpq]
  rw [readWindow_writeSeq vs init d (C + 1) hinit (by omega)]

/-- Witness for C4: round trip of `[5, 7]` through a capacity-2 queue. -/
theorem fifo_roundtrip_witness :
    (CircularQueue.popMany
        (CircularQueue.pushMany (CircularQueue.construct 2 (0 : Int) [0, 0, 0]) [5, 7])
        ([5, 7] : List Int).length).1 = [5, 7] :=
  fifo_roundtrip 2 0 [0, 0, 0] rfl [5, 7] (by decide)
